import Mathlib

/-!
Verification of the data-query-agent repository's schema introspection and
numeric-text normalization engine (src/db_manager.py and the two backend
adapters).  Python string/regex operations are shallowly embedded as
executable functions on `List Char` / `String`; SQLite expression synthesis
is embedded as an AST together with a renderer that reproduces the exact
SQL strings built by the source and an evaluator implementing the SQLite
semantics of the emitted operators.
-/

namespace DataQueryAgent

/-! ### Character classes

Python's `\s` (for `str` patterns) matches Unicode whitespace; we model the
common whitespace characters, which covers every character the repository's
data paths exercise. -/

def isPyWS (c : Char) : Bool :=
  c = ' ' || c = '\t' || c = '\n' || c = '\r' || c = '\x0b' || c = '\x0c' || c = '\xa0'

/-- Currency symbols recognized by `_looks_numeric` and
`_detect_numeric_text_columns`, in ascending code-point order (the order
`sorted()` produces in Python): `$` (36), `£` (163), `¥` (165), `€` (8364),
`＄` (65284). -/
def moneySyms : List Char := ['$', '£', '¥', '€', '＄']

def isMoneySym (c : Char) : Bool := moneySyms.contains c

/-- The single-character alternatives of the substitution pattern
`[$＄€£¥,\s]` in `_looks_numeric`. -/
def inStripClass (c : Char) : Bool := isMoneySym c || c = ',' || isPyWS c

/-- First characters of the word alternatives `Desde|desde|From|from`. -/
def isWordStart (c : Char) : Bool := c = 'D' || c = 'd' || c = 'F' || c = 'f'

theorem length_dropWhile_le (p : Char → Bool) (l : List Char) :
    (l.dropWhile p).length ≤ l.length := by
  induction l with
  | nil => simp [List.dropWhile]
  | cons c rest ih =>
    by_cases h : p c
    · simp [List.dropWhile, h]; omega
    · simp [List.dropWhile, h]

/-- Embedding of `re.sub(r'[Dd]esde\s*|[Ff]rom\s*|[$＄€£¥,\s]', '', value)`:
scan left to right; at each position try the alternatives in order (a
`Desde`/`desde` word followed by greedy whitespace, a `From`/`from` word
followed by greedy whitespace, a single character of the class) and delete
the matched text.  Every alternative consumes at least one character, so a
fuel of `l.length` always suffices; the fuel only makes the recursion
structural. -/
def stripGo : Nat → List Char → List Char
  | _, [] => []
  | 0, l => l
  | fuel + 1, c :: rest =>
    if "Desde".data.isPrefixOf (c :: rest) || "desde".data.isPrefixOf (c :: rest) then
      stripGo fuel (List.dropWhile isPyWS (rest.drop 4))
    else if "From".data.isPrefixOf (c :: rest) || "from".data.isPrefixOf (c :: rest) then
      stripGo fuel (List.dropWhile isPyWS (rest.drop 3))
    else if inStripClass c then
      stripGo fuel rest
    else
      c :: stripGo fuel rest

def stripMarkers (l : List Char) : List Char := stripGo l.length l

/-- Does the split pattern `\s*-\s*` of `_looks_numeric` match at the head
of `l`?  (Greedy `\s*` then a literal `-`.) -/
def sepHere (l : List Char) : Bool :=
  match l.dropWhile isPyWS with
  | '-' :: _ => true
  | _ => false

/-- `re.split(r'\s*-\s*', cleaned)[0]`: the text before the leftmost match
of the separator pattern (the whole list when there is no match). -/
def beforeSep : List Char → List Char
  | [] => []
  | c :: rest => if sepHere (c :: rest) then [] else c :: beforeSep rest

/-- `re.match(r'^\d{4}-\d{2}-\d{2}', value)` as a Boolean. -/
def digitAt (l : List Char) (i : Nat) : Bool :=
  ((l.get? i).map Char.isDigit).getD false

def dashAt (l : List Char) (i : Nat) : Bool :=
  ((l.get? i).map (· == '-')).getD false

def isoDateStart (l : List Char) : Bool :=
  digitAt l 0 && digitAt l 1 && digitAt l 2 && digitAt l 3 && dashAt l 4 &&
  digitAt l 5 && digitAt l 6 && dashAt l 7 && digitAt l 8 && digitAt l 9

def alphaCountL (l : List Char) : Nat := l.countP (fun c => c.isAlpha)

def digitCountL (l : List Char) : Nat := l.countP (fun c => c.isDigit)

/-- Embedding of `_looks_numeric` (src/db_manager.py lines 269-284).
The final float comparison `alpha_count <= digit_count * 0.3` is exact on
the integer inputs involved and is rendered as `10 * alpha ≤ 3 * digit`. -/
def looksNumeric (v : String) : Bool :=
  if isoDateStart v.data then false
  else
    let cleaned := stripMarkers v.data
    let fp := beforeSep cleaned
    if fp.isEmpty then false
    else decide (0 < digitCountL fp) && decide (10 * alphaCountL fp ≤ 3 * digitCountL fp)

example : looksNumeric "$1,200 - $3,400" = true := by decide
example : looksNumeric "2024-01-05" = false := by decide
example : looksNumeric "Desde $1,500" = true := by decide
example : looksNumeric "-500" = false := by decide
example : looksNumeric "abc" = false := by decide
example : looksNumeric "" = false := by decide

/-! ### Spanish date parsing (`_parse_spanish_date`, src/db_manager.py 30-53)

The pattern `(\w+)\s+(\d{1,2}),\s*(\d{4}),?\s*(\d{1,2}):(\d{2})\s*(a\.?\s*m\.?|p\.?\s*m\.?)`
is anchored at the start (`re.match`) and, because each bounded group is
followed by a character that cannot extend it, backtracking never changes
the outcome; the embedding below parses deterministically with the same
greedy semantics. -/

def isWordChar (c : Char) : Bool := c.isAlphanum || c = '_'

/-- Python `str.strip()` on both ends. -/
def pyStrip (l : List Char) : List Char :=
  ((l.dropWhile isPyWS).reverse.dropWhile isPyWS).reverse

def digitVal (c : Char) : Nat := c.toNat - 48

def spanishMonths : List (String × Nat) :=
  [("enero", 1), ("febrero", 2), ("marzo", 3), ("abril", 4),
   ("mayo", 5), ("junio", 6), ("julio", 7), ("agosto", 8),
   ("septiembre", 9), ("octubre", 10), ("noviembre", 11), ("diciembre", 12)]

/-- `(\d{1,2})` immediately followed by the required character `stop`
(greedy: two digits are preferred; the one-digit alternative only fires
when the two-digit one cannot, and the alternatives are mutually
exclusive). Returns the numeric value and the text after `stop`. -/
def parseNumBefore (stop : Char) (l : List Char) : Option (Nat × List Char) :=
  match l with
  | d1 :: d2 :: c :: rest =>
    if d1.isDigit && d2.isDigit && c == stop then
      some (10 * digitVal d1 + digitVal d2, rest)
    else if d1.isDigit && d2 == stop then
      some (digitVal d1, c :: rest)
    else none
  | [d1, d2] =>
    if d1.isDigit && d2 == stop then some (digitVal d1, []) else none
  | _ => none

/-- Zero-padded rendering matching Python `{:02d}` / `{:04d}`. -/
def pad2 (n : Nat) : String := if n < 10 then "0" ++ toString n else toString n

def pad4 (n : Nat) : String :=
  if n < 10 then "000" ++ toString n
  else if n < 100 then "00" ++ toString n
  else if n < 1000 then "0" ++ toString n
  else toString n

/-- Embedding of `_parse_spanish_date`. -/
def parseSpanishDate (value : String) : Option String :=
  let cleaned := pyStrip (value.data.map (fun c => if c = '\xa0' then ' ' else c))
  let w := cleaned.takeWhile isWordChar
  if w.isEmpty then none else
  let r1 := cleaned.drop w.length
  if (r1.takeWhile isPyWS).isEmpty then none else
  let r2 := r1.dropWhile isPyWS
  match parseNumBefore ',' r2 with
  | none => none
  | some (day, r3) =>
    let r4 := r3.dropWhile isPyWS
    match r4 with
    | y1 :: y2 :: y3 :: y4 :: r5 =>
      if !(y1.isDigit && y2.isDigit && y3.isDigit && y4.isDigit) then none else
      let year := 1000 * digitVal y1 + 100 * digitVal y2 + 10 * digitVal y3 + digitVal y4
      let r6 := match r5 with | ',' :: t => t | _ => r5
      let r7 := r6.dropWhile isPyWS
      match parseNumBefore ':' r7 with
      | none => none
      | some (hour, r8) =>
        match r8 with
        | m1 :: m2 :: r9 =>
          if !(m1.isDigit && m2.isDigit) then none else
          let minute := 10 * digitVal m1 + digitVal m2
          let r10 := r9.dropWhile isPyWS
          match r10 with
          | mer :: r11 =>
            if mer.toLower = 'a' || mer.toLower = 'p' then
              let r12 := match r11 with | '.' :: t => t | _ => r11
              let r13 := r12.dropWhile isPyWS
              match r13 with
              | mc :: _ =>
                if mc.toLower = 'm' then
                  match spanishMonths.lookup (String.mk (w.map Char.toLower)) with
                  | none => none
                  | some month =>
                    let hour24 :=
                      if mer.toLower = 'p' && hour ≠ 12 then hour + 12
                      else if mer.toLower = 'a' && hour = 12 then 0
                      else hour
                    some (pad4 year ++ "-" ++ pad2 month ++ "-" ++ pad2 day ++ " " ++
                          pad2 hour24 ++ ":" ++ pad2 minute ++ ":00")
                else none
              | [] => none
            else none
          | [] => none
        | _ => none
    | _ => none

example : parseSpanishDate "diciembre 22, 2025, 4:13 p. m." = some "2025-12-22 16:13:00" := by
  decide
example : parseSpanishDate "diciembre 22, 2025, 12:00 a. m." = some "2025-12-22 00:00:00" := by
  decide
example : parseSpanishDate "hello" = none := by decide
example : parseSpanishDate "enero 5, 2024, 11:59 p.m." = some "2024-01-05 23:59:00" := by decide

/-! ### Temporal Normalizer (`_convert_spanish_date_columns`, src/db_manager.py 56-70)

A pandas object-column cell is either null (`None`/`NaN`), a string, or
some other non-null scalar. -/

inductive PyVal
  | pnull
  | pstr (s : String)
  | pother
deriving DecidableEq, Repr

/-- `_parse_spanish_date` applied to a cell (non-strings fail the
`isinstance` check inside the function and give `None`). -/
def parseOfVal : PyVal → Option String
  | .pstr s => parseSpanishDate s
  | _ => none

/-- The rewrite `lambda v: _parse_spanish_date(v) if isinstance(v, str) else v`:
a string cell becomes the parsed ISO string, or null when parsing fails;
non-string cells pass through unchanged. -/
def rewriteVal : PyVal → PyVal
  | .pstr s =>
    match parseSpanishDate s with
    | some iso => .pstr iso
    | none => .pnull
  | v => v

/-- `df[col].dropna().head(10)`: the first up-to-10 non-null cells. -/
def sampleOf (col : List PyVal) : List PyVal :=
  (col.filter (fun v => !(v == PyVal.pnull))).take 10

/-- `converted.notna().sum()`: how many sampled cells parse. -/
def hitsOf (col : List PyVal) : Nat :=
  (sampleOf col).countP (fun v => (parseOfVal v).isSome)

/-- Embedding of the per-column body of `_convert_spanish_date_columns`:
sample the first up-to-10 non-null cells, and rewrite the whole column iff
at least 70% of the sample parses (the float comparison
`hit_rate >= 0.7` is exact on these rationals and is rendered as
`7 * |sample| ≤ 10 * hits`). -/
def convertColumn (col : List PyVal) : List PyVal :=
  if (sampleOf col).isEmpty then col
  else if 7 * (sampleOf col).length ≤ 10 * hitsOf col then col.map rewriteVal
  else col

example :
    convertColumn [.pstr "diciembre 22, 2025, 4:13 p. m.", .pstr "hello"] =
      [.pstr "diciembre 22, 2025, 4:13 p. m.", .pstr "hello"] := by decide

/-! ### SQLite string-function semantics

Semantics of the operators appearing in the synthesized cleaning
expressions: `REPLACE`, `TRIM`, `INSTR`, `SUBSTR`, `CAST(… AS REAL)`. -/

/-- Python `y in x` / substring test. -/
def listContains (pat : List Char) : List Char → Bool
  | [] => pat.isPrefixOf []
  | c :: rest => pat.isPrefixOf (c :: rest) || listContains pat rest

/-- Worker for `REPLACE(x, pat, '')`: leftmost, non-overlapping.  For a
non-empty `pat` every step consumes at least one character, so fuel
`l.length` suffices. -/
def replGo : Nat → List Char → List Char → List Char
  | _, _, [] => []
  | 0, _, l => l
  | fuel + 1, pat, c :: rest =>
    if pat.isPrefixOf (c :: rest) then replGo fuel pat ((c :: rest).drop pat.length)
    else c :: replGo fuel pat rest

/-- `REPLACE(x, pat, '')`; SQLite returns `x` unchanged for an empty
pattern. -/
def replaceAllL (pat l : List Char) : List Char :=
  match pat with
  | [] => l
  | _ => replGo l.length pat l

/-- SQLite `TRIM(x)` removes space characters (`' '`) from both ends. -/
def sqliteTrimL (l : List Char) : List Char :=
  ((l.dropWhile (· == ' ')).reverse.dropWhile (· == ' ')).reverse

def sqliteTrimS (s : String) : String := String.mk (sqliteTrimL s.data)

def instrAux (sub : List Char) : List Char → Nat → Nat
  | [], i => if sub.isPrefixOf [] then i else 0
  | c :: rest, i => if sub.isPrefixOf (c :: rest) then i else instrAux sub rest (i + 1)

/-- SQLite `INSTR(l, sub)`: 1-based index of the first occurrence, 0 when
absent. -/
def instrL (l sub : List Char) : Nat := instrAux sub l 1

/-- SQLite `SUBSTR(l, start, len)` (1-based `start`; only called with
`start ≥ 1` here). -/
def substr3 (l : List Char) (start len : Nat) : List Char := (l.drop (start - 1)).take len

/-- SQLite `SUBSTR(l, start)` to the end of the string. -/
def substr2 (l : List Char) (start : Nat) : List Char := l.drop (start - 1)

def digitsToNat (l : List Char) : Nat := l.foldl (fun n c => 10 * n + digitVal c) 0

/-- SQLite `CAST(text AS REAL)`: longest numeric prefix after optional
leading whitespace and sign, `0` when no digits are found.  (An exponent
suffix is accepted by SQLite but can never be produced by the synthesized
expressions, so it is not modelled.)  The value
`sign * (intpart + fracpart / 10^k)` is assembled with `mkRat` so that it
evaluates by kernel reduction. -/
def sqliteCastReal (s : String) : ℚ :=
  let l := s.data.dropWhile (fun c => c == ' ' || c == '\t' || c == '\n' || c == '\r')
  let neg : Bool := match l with | '-' :: _ => true | _ => false
  let l1 := match l with | '-' :: t => t | '+' :: t => t | _ => l
  let ip := l1.takeWhile Char.isDigit
  let l2 := l1.dropWhile Char.isDigit
  let fp := match l2 with | '.' :: t => t.takeWhile Char.isDigit | _ => []
  if ip.isEmpty && fp.isEmpty then 0
  else
    let den : Nat := 10 ^ fp.length
    let mag : Nat := digitsToNat ip * den + digitsToNat fp
    mkRat (if neg then -(mag : Int) else (mag : Int)) den

example : sqliteCastReal "1200" = 1200 := by decide
example : sqliteCastReal "3,400" = 3 := by decide
example : sqliteCastReal "abc" = 0 := by decide
example : sqliteCastReal "-1.5" = mkRat (-3) 2 := by decide

/-! ### Expression synthesis (`_detect_numeric_text_columns`, src/db_manager.py 287-411)

The SQL text built by the source is represented as an AST whose renderer
reproduces the exact f-strings of the code, together with an evaluator
giving the emitted operators their SQLite meaning on one column value. -/

inductive CleanExpr
  | colRef (name : String)
  | rep (e : CleanExpr) (lit : String)
  | trim (e : CleanExpr)
  | caseFirst (c : CleanExpr) (sep : String)
  | caseSecond (c : CleanExpr) (sep : String)
  | castReal (e : CleanExpr)
deriving DecidableEq, Repr

/-- The exact SQL string the source builds for each AST node. -/
def render : CleanExpr → String
  | .colRef name => "\"" ++ name ++ "\""
  | .rep e lit => "REPLACE(" ++ render e ++ ", '" ++ lit ++ "', '')"
  | .trim e => "TRIM(" ++ render e ++ ")"
  | .caseFirst c sep =>
    let ca := render c
    "CASE WHEN INSTR(" ++ ca ++ ", '" ++ sep ++ "') > 0 THEN TRIM(SUBSTR(" ++ ca ++
      ", 1, INSTR(" ++ ca ++ ", '" ++ sep ++ "') - 1)) ELSE " ++ ca ++ " END"
  | .caseSecond c sep =>
    let ca := render c
    "CASE WHEN INSTR(" ++ ca ++ ", '" ++ sep ++ "') > 0 THEN TRIM(SUBSTR(" ++ ca ++
      ", INSTR(" ++ ca ++ ", '" ++ sep ++ "') + " ++ toString sep.length ++ ")) ELSE " ++
      ca ++ " END"
  | .castReal e => "CAST(" ++ render e ++ " AS REAL)"

/-- String value of an expression on one column value `v`. -/
def evalS : CleanExpr → String → String
  | .colRef _, v => v
  | .rep e lit, v => String.mk (replaceAllL lit.data (evalS e v).data)
  | .trim e, v => sqliteTrimS (evalS e v)
  | .caseFirst c sep, v =>
    let s := (evalS c v).data
    let i := instrL s sep.data
    if 0 < i then String.mk (sqliteTrimL (substr3 s 1 (i - 1))) else String.mk s
  | .caseSecond c sep, v =>
    let s := (evalS c v).data
    let i := instrL s sep.data
    if 0 < i then String.mk (sqliteTrimL (substr2 s (i + sep.length))) else String.mk s
  | .castReal e, v => evalS e v

/-- Numeric value of an expression on one column value `v` (the emitted
expressions are `CAST(… AS REAL)` at top level). -/
def evalReal (e : CleanExpr) (v : String) : ℚ := sqliteCastReal (evalS e v)

structure Finding where
  table : String
  column : String
  formatsFound : List String
  exprMin : CleanExpr
  exprMax : CleanExpr
deriving DecidableEq, Repr

/-- `re.match(r'^(Desde|From|desde|from)\s+', v)`: the matched text
(word plus the greedy run of whitespace), if any. -/
def preMatchAt (l : List Char) (n : Nat) : Option (List Char) :=
  let ws := (l.drop n).takeWhile isPyWS
  if ws.isEmpty then none else some (l.take n ++ ws)

def preMatchL (l : List Char) : Option (List Char) :=
  if "Desde".data.isPrefixOf l then preMatchAt l 5
  else if "From".data.isPrefixOf l then preMatchAt l 4
  else if "desde".data.isPrefixOf l then preMatchAt l 5
  else if "from".data.isPrefixOf l then preMatchAt l 4
  else none

/-- `re.search(r'\d\s*-\s*[＄$€£¥]?\d', v)` at one position (greedy and
deterministic: none of `-`, the symbols or a digit is whitespace). -/
def nospaceAt (l : List Char) : Bool :=
  match l with
  | [] => false
  | c :: rest =>
    c.isDigit &&
      (match rest.dropWhile isPyWS with
       | '-' :: r2 =>
         (match r2.dropWhile isPyWS with
          | x :: y :: _ => if isMoneySym x then y.isDigit else x.isDigit
          | [x] => !isMoneySym x && x.isDigit
          | [] => false)
       | _ => false)

def nospaceSearch : List Char → Bool
  | [] => false
  | c :: rest => nospaceAt (c :: rest) || nospaceSearch rest

/-- `' - ' in v` over the distinct values. -/
def hasRangeSpaced (vals : List String) : Bool :=
  vals.any (fun v => listContains " - ".data v.data)

/-- The `elif` branch: a value only contributes to the tight-range flag
when it does not contain the spaced separator. -/
def hasRangeNospace (vals : List String) : Bool :=
  vals.any (fun v => !listContains " - ".data v.data && nospaceSearch v.data)

/-- The currency symbols found across the distinct values, in ascending
code-point order (what Python's `sorted(symbols_found)` yields). -/
def symbolsIn (vals : List String) : List Char :=
  moneySyms.filter (fun sym => vals.any (fun v => v.data.contains sym))

/-- The set of matched prefixes, in first-encounter order. -/
def prefixAccum (vals : List String) : List String :=
  vals.foldl
    (fun acc v =>
      match preMatchL v.data with
      | some p => let s := String.mk p; if acc.contains s then acc else acc ++ [s]
      | none => acc)
    []

/-- Stable insertion sort by length, descending
(`sorted(prefixes_found, key=len, reverse=True)`). -/
def insertByLenDesc (s : String) : List String → List String
  | [] => [s]
  | x :: xs => if s.length ≤ x.length then x :: insertByLenDesc s xs else s :: x :: xs

def sortByLenDesc (l : List String) : List String :=
  l.foldl (fun acc s => insertByLenDesc s acc) []

/-- Lexicographic ascending sort (`sorted(prefixes_found)`). -/
def insertStrAsc (s : String) : List String → List String
  | [] => [s]
  | x :: xs => if s < x then s :: x :: xs else x :: insertStrAsc s xs

def sortStrAsc (l : List String) : List String :=
  l.foldl (fun acc s => insertStrAsc s acc) []

/-- Python `sep.join(parts)`. -/
def joinSep (sep : String) : List String → String
  | [] => ""
  | a :: as => as.foldl (fun acc x => acc ++ sep ++ x) a

def joinSyms (syms : List Char) : String :=
  joinSep ", " (syms.map (fun c => String.mk [c]))

/-- Per-column body of `_detect_numeric_text_columns`, applied to the
result of `SELECT DISTINCT "col" … WHERE "col" IS NOT NULL`.  The
comprehension `[str(r[0]) for r in cursor.fetchall() if r[0]]` keeps only
truthy values, which for strings means non-empty ones; the float guard
`numeric_count < len(distinct_vals) * 0.5` is exact and rendered as
`2 * numeric_count < len`. -/
def classifyColumn (tbl col : String) (distinctRaw : List String) : Option Finding :=
  let distinctVals := distinctRaw.filter (fun v => !(v == ""))
  if distinctVals.isEmpty then none
  else if 2 * distinctVals.countP (fun v => looksNumeric v) < distinctVals.length then none
  else
    let pAcc := prefixAccum distinctVals
    let symbols := symbolsIn distinctVals
    let spaced := hasRangeSpaced distinctVals
    let nospace := hasRangeNospace distinctVals
    let expr0 := (sortByLenDesc pAcc).foldl (fun e p => CleanExpr.rep e p) (CleanExpr.colRef col)
    let expr1 := symbols.foldl (fun e s => CleanExpr.rep e (String.mk [s])) expr0
    let cleanedAlias := CleanExpr.trim expr1
    let exprs :=
      if spaced || nospace then
        let sep := if spaced then " - " else "-"
        let firstNum :=
          symbols.foldl (fun e s => CleanExpr.rep e (String.mk [s]))
            (CleanExpr.caseFirst cleanedAlias sep)
        let secondNum :=
          symbols.foldl (fun e s => CleanExpr.rep e (String.mk [s]))
            (CleanExpr.caseSecond cleanedAlias sep)
        (CleanExpr.castReal (.rep firstNum ","), CleanExpr.castReal (.rep secondNum ","))
      else
        let e := CleanExpr.castReal (.rep cleanedAlias ",")
        (e, e)
    let tags :=
      (if spaced then ["range with \" - \" separator"] else []) ++
      (if nospace then ["range with \"-\" separator (no spaces)"] else []) ++
      (if pAcc.isEmpty then [] else
        ["prefixes: " ++ joinSep ", " (sortStrAsc pAcc)]) ++
      (if symbols.isEmpty then [] else ["currency symbols: " ++ joinSyms symbols])
    let formats := if tags.isEmpty then ["plain formatted numbers with commas"] else tags
    some { table := tbl, column := col, formatsFound := formats,
           exprMin := exprs.1, exprMax := exprs.2 }

example :
    (classifyColumn "t" "price" ["$1,200 - $3,400"]).map
      (fun f => (evalReal f.exprMin "$1,200 - $3,400", evalReal f.exprMax "$1,200 - $3,400")) =
      some (1200, 3400) := by decide

example : classifyColumn "t" "c" ["abc", "def", "5"] = none := by decide

example :
    (classifyColumn "t" "c" ["1,200", "3,400"]).map (fun f => render f.exprMin == render f.exprMax) =
      some true := by decide

/-! ### Database model

A SQLite table, row-major: column metadata as returned by
`PRAGMA table_info` (name, declared type, NOT NULL flag, primary-key flag)
and rows of optional text cells. -/

structure ColMeta where
  name : String
  declType : String
  notnull : Bool
  pk : Bool
deriving DecidableEq, Repr

structure Table where
  name : String
  colsMeta : List ColMeta
  rows : List (List (Option String))
deriving DecidableEq, Repr

def columnValues (t : Table) (i : Nat) : List (Option String) :=
  t.rows.map (fun r => (r.get? i).getD none)

/-- `SELECT DISTINCT` keeps one copy of each value (first-occurrence
order). -/
def dedupFirst (l : List String) : List String :=
  l.foldl (fun acc x => if acc.contains x then acc else acc ++ [x]) []

/-- `SELECT DISTINCT "col" FROM t WHERE "col" IS NOT NULL`. -/
def distinctNonNull (t : Table) (i : Nat) : List String :=
  dedupFirst ((columnValues t i).filterMap id)

/-- Python `.upper()` (the declared types handled here are ASCII). -/
def asciiUpper (s : String) : String := String.mk (s.data.map Char.toUpper)

/-- Embedding of `_detect_numeric_text_columns` over a whole database:
the per-column classifier applied to every TEXT-typed column of every
table. -/
def detectNumericTextColumns (db : List Table) : List Finding :=
  (db.map (fun t =>
    (t.colsMeta.enum).filterMap (fun ic =>
      if asciiUpper ic.2.declType == "TEXT" then
        classifyColumn t.name ic.2.name (distinctNonNull t ic.1)
      else none))).flatten

/-! ### Schema Descriptor (`get_schema_info` / `format_schema_for_llm`,
src/db_manager.py 189-238 and 439-467) -/

structure ColInfo where
  name : String
  declType : String
  nullable : Bool
  primaryKey : Bool
  sampleValues : List String
deriving DecidableEq, Repr

structure TableInfo where
  tableName : String
  rowCount : Nat
  columns : List ColInfo
deriving DecidableEq, Repr

/-- `get_schema_info`: per table, `PRAGMA table_info`, `COUNT(*)` and the
non-null cells of the first three rows (`SELECT * LIMIT 3`) as samples. -/
def schemaInfo (db : List Table) : List TableInfo :=
  db.map (fun t =>
    { tableName := t.name,
      rowCount := t.rows.length,
      columns := (t.colsMeta.enum).map (fun ic =>
        { name := ic.2.name, declType := ic.2.declType,
          nullable := !ic.2.notnull, primaryKey := ic.2.pk,
          sampleValues :=
            (((t.rows.take 3).map (fun r => (r.get? ic.1).getD none)).filterMap id).take 3 }) })

/-- Python `{:Ns}` left-justified padding. -/
def padTo (s : String) (n : Nat) : String :=
  s ++ String.mk (List.replicate (n - s.length) ' ')

def tableBlock (ti : TableInfo) : String :=
  joinSep "\n"
    (["Table: " ++ ti.tableName ++ " (" ++ toString ti.rowCount ++ " rows)",
      String.mk (List.replicate 50 '-')] ++
     (ti.columns.map (fun c =>
        ["  " ++ padTo c.name 30 ++ " " ++ padTo c.declType 15 ++ " " ++
           padTo (if c.nullable then "NULL" else "NOT NULL") 8 ++
           (if c.primaryKey then " [PK]" else ""),
         "    Sample values: " ++
           (if c.sampleValues.isEmpty then "N/A"
            else joinSep ", " c.sampleValues)])).flatten)

/-- The per-table part of the Schema Document (the value of the local
variable `schema_text`), including the empty-database message. -/
def schemaBaseText (db : List Table) : String :=
  if (schemaInfo db).isEmpty then "No tables found in the database."
  else joinSep "\n\n" ((schemaInfo db).map tableBlock)

def findingLines (e : Finding) : List String :=
  ["Column: " ++ e.column ++ "  (table: " ++ e.table ++ ")",
   "  Formats found: " ++ joinSep "; " e.formatsFound,
   "  Expression for MINIMUM numeric value:",
   "    " ++ render e.exprMin] ++
  (if render e.exprMax == render e.exprMin then []
   else ["  Expression for MAXIMUM numeric value:", "    " ++ render e.exprMax]) ++
  [""]

/-- Embedding of `get_cleaning_expressions`. -/
def getCleaningExpressions (db : List Table) : String :=
  let entries := detectNumericTextColumns db
  if entries.isEmpty then "No numeric-as-text columns detected."
  else
    joinSep "\n"
      (["## SQL Cleaning Expressions\n"] ++ (entries.map findingLines).flatten ++
       ["USE these expressions in ORDER BY, WHERE, MIN(), MAX(), etc.",
        "NEVER use plain ORDER BY on the original text column."])

/-- Embedding of `format_schema_for_llm`: per-table blocks, then the
cleaning section, appended only when the cleaning text is non-empty and
does not contain the sentinel substring `"No numeric-as-text"`. -/
def formatSchemaForLLM (db : List Table) : String :=
  if (schemaInfo db).isEmpty then "No tables found in the database."
  else
    let schemaText := joinSep "\n\n" ((schemaInfo db).map tableBlock)
    let cleaning := getCleaningExpressions db
    if !(cleaning == "") && !(listContains "No numeric-as-text".data cleaning.data) then
      schemaText ++ "\n\n" ++ cleaning
    else schemaText

/-! ### Column Summary (`get_column_summary`, src/db_manager.py 131-186,
and `BigQueryBackend.get_column_summary`, src/backends/bigquery_backend.py
174-216)

Python evaluates `round(filled / total * 100, 1)` in IEEE-754 binary64:
the int/int true division and the product by 100 are each rounded to the
nearest double (ties to even), and CPython's `round(x, 1)` then picks the
multiple of 1/10 nearest the EXACT binary value of that double (ties to
even), returning the double nearest that decimal.  `dbl n d` is the
nearest binary64 value of `n/d` as a mantissa/exponent pair (the fill
ratios here all lie in the normal range (0, 100]), `fillPctTenths` runs
the three-step pipeline, and `fillPctQ filled total` is the resulting
decimal, `tenths/10` — the exact decimal the returned float prints as and
compares equal to (the map `d/10 ↦ nearest double` is injective on
one-decimal literals, so this representation is faithful).  Note the
result can differ from rounding the exact ratio: `23/80` gives 28.7, not
28.8. -/

/-- `round(p/q)` with the round-half-to-even tie rule, for `q > 0`. -/
def halfEvenDiv (p q : Int) : Int :=
  let d := p.fdiv q
  let r := p.fmod q
  if 2 * r < q then d
  else if q < 2 * r then d + 1
  else if d % 2 = 0 then d else d + 1

def log2Go : Nat → Nat → Nat
  | 0, _ => 0
  | fuel + 1, n => if n ≤ 1 then 0 else log2Go fuel (n / 2) + 1

/-- `⌊log2 n⌋` (0 at 0), by fuel so it reduces in the kernel. -/
def natLog2 (n : Nat) : Nat := log2Go n n

/-- `2^e ≤ n/d`, for an integer `e` and positive naturals. -/
def pow2Le (e : Int) (n d : Nat) : Bool :=
  if 0 ≤ e then d * 2 ^ e.toNat ≤ n else d ≤ n * 2 ^ (-e).toNat

/-- `⌊log2 (n/d)⌋` for positive naturals: the bit-length estimate is off
by at most one, fixed by a single comparison. -/
def ratLog2 (n d : Nat) : Int :=
  let e0 : Int := (natLog2 n : Int) - (natLog2 d : Int)
  if pow2Le e0 n d then e0 else e0 - 1

/-- The nearest IEEE-754 binary64 value of `n/d` (round to nearest, ties
to even), returned as `(m, S)` with value `m * 2^S` and `2^52 ≤ m ≤ 2^53`:
the scaled quotient `n·2^(-S) / d` is rounded half-even to the integer
mantissa.  Exact for the normal range; all values appearing in the fill
percentages lie in (0, 100]. -/
def dbl (n d : Nat) : Nat × Int :=
  let S : Int := ratLog2 n d - 52
  let numer := n * 2 ^ (Int.toNat (-S))
  let denom := d * 2 ^ (Int.toNat S)
  ((halfEvenDiv (numer : Int) (denom : Int)).toNat, S)

/-- Tenths of `round(filled / total * 100, 1)` as CPython computes it:
`x1 = filled/total` rounded to binary64, `x2 = x1*100` rounded to
binary64, then the multiple of 1/10 nearest the exact value of `x2`
(ties to even — `_Py_dg_dtoa`'s correct decimal rounding). -/
def fillPctTenths (filled total : Nat) : Int :=
  let x1 := dbl filled total
  let x2 :=
    if 0 ≤ x1.2 then dbl (x1.1 * 2 ^ x1.2.toNat * 100) 1
    else dbl (x1.1 * 100) (2 ^ (Int.toNat (-x1.2)))
  if 0 ≤ x2.2 then ((10 * x2.1 * 2 ^ x2.2.toNat : Nat) : Int)
  else halfEvenDiv ((10 * x2.1 : Nat) : Int) ((2 ^ (Int.toNat (-x2.2)) : Nat) : Int)

/-- The decimal value of `round(filled / total * 100, 1)`. -/
def fillPctQ (filled total : Nat) : ℚ :=
  mkRat (fillPctTenths filled total) 10

structure SummaryEntry where
  table : String
  column : String
  colType : String
  filled : Nat
  total : Nat
  fillPct : ℚ
  samples : List String
deriving DecidableEq, Repr

/-- The SQLite filled test `"c" IS NOT NULL AND TRIM("c") != ''`. -/
def truthyCell (v : Option String) : Bool :=
  match v with
  | some s => !(sqliteTrimS s == "")
  | none => false

/-- Embedding of the SQLite `get_column_summary` (an empty `table_name`
means all tables). -/
def columnSummary (db : List Table) (tableName : String) : List SummaryEntry :=
  let tables := if tableName == "" then db else db.filter (fun t => t.name == tableName)
  (tables.map (fun t =>
    (t.colsMeta.enum).filterMap (fun ic =>
      let vals := columnValues t ic.1
      let filled := vals.countP truthyCell
      if filled == 0 then none
      else
        some { table := t.name, column := ic.2.name,
               colType := if ic.2.declType == "" then "TEXT" else ic.2.declType,
               filled := filled, total := t.rows.length,
               fillPct := if t.rows.length == 0 then 0 else fillPctQ filled t.rows.length,
               samples :=
                 (dedupFirst ((vals.filterMap id).filter
                   (fun s => !(sqliteTrimS s == "")))).take 5 }))).flatten

/-- A BigQuery table: field metadata plus rows (remote data reachable by
the adapter's queries). -/
structure BqCol where
  name : String
  fieldType : String
  nullable : Bool
deriving DecidableEq, Repr

structure BqTable where
  name : String
  cols : List BqCol
  rows : List (List (Option String))
deriving DecidableEq, Repr

def bqColumnValues (t : BqTable) (i : Nat) : List (Option String) :=
  t.rows.map (fun r => (r.get? i).getD none)

/-- `_get_sample_values`: `SELECT DISTINCT col WHERE col IS NOT NULL LIMIT 3`. -/
def bqSampleValues (t : BqTable) (i : Nat) : List String :=
  (dedupFirst ((bqColumnValues t i).filterMap id)).take 3

/-- Embedding of `BigQueryBackend.get_column_summary`: `filled` is
`COUNTIF(col IS NOT NULL)` — empty strings count as filled. -/
def bqColumnSummary (tables : List BqTable) (tableName : Option String) : List SummaryEntry :=
  (tables.map (fun t =>
    if tableName.elim false (fun tn => !(t.name == tn)) then []
    else
      (t.cols.enum).filterMap (fun ic =>
        let total := t.rows.length
        let filled := (bqColumnValues t ic.1).countP (fun v => v.isSome)
        if filled == 0 then none
        else
          some { table := t.name, column := ic.2.name, colType := ic.2.fieldType,
                 filled := filled, total := total,
                 fillPct := if total == 0 then 0 else fillPctQ filled total,
                 samples := bqSampleValues t ic.1 }))).flatten

example :
    (columnSummary [⟨"t", [⟨"c", "TEXT", false, false⟩],
        List.replicate 7 [some "x"] ++ List.replicate 3 [none]⟩] "").map (fun e => e.fillPct) =
      [70] := by decide

example :
    (bqColumnSummary [⟨"t", [⟨"c", "STRING", true⟩], [[some ""]]⟩] none).length = 1 := by decide

example :
    (detectNumericTextColumns
      [⟨"t", [⟨"price", "TEXT", false, false⟩], [[some "1,200"]]⟩]).length = 1 := by decide

example :
    listContains "## SQL Cleaning Expressions".data
      (formatSchemaForLLM
        [⟨"t", [⟨"No numeric-as-text c", "TEXT", false, false⟩],
          [[some "100"], [some "200"]]⟩]).data = false := by decide

/-! ### Claim-side value classes for C1 and C9 -/

def decimalDigits : List Char := ['0', '1', '2', '3', '4', '5', '6', '7', '8', '9']

/-- A thousands-comma numeric token: non-empty, made of decimal digits and
commas, with at least one digit (e.g. "1,200"). -/
def numTok (l : List Char) : Bool :=
  !l.isEmpty && l.all (fun c => decimalDigits.contains c || c == ',') &&
    l.any (fun c => decimalDigits.contains c)

/-- A value "in the style of $1,200 - $3,400": a dollar range with the
spaced separator and thousands-comma numbers. -/
def DollarRangeStyled (v : String) : Prop :=
  ∃ a b : List Char, numTok a = true ∧ numTok b = true ∧
    v.data = '$' :: (a ++ (' ' :: '-' :: ' ' :: '$' :: b))

/-- Pairwise-distinct plain numeric strings "1", "10", "100", … used to
build arbitrarily long distinct-value lists. -/
def mkVal (k : Nat) : String := String.mk ('1' :: List.replicate k '0')

def baseVals (n : Nat) : List String := (List.range n).map mkVal

/-- The plain (no-range, no-symbol, no-prefix) cleaning expression the
classifier synthesizes. -/
def plainExprFor (col : String) : CleanExpr :=
  CleanExpr.castReal (.rep (.trim (.colRef col)) ",")

/-- The two cleaning expressions synthesized for a spaced range with no
currency symbols or prefixes. -/
def rangeMinFor (col : String) : CleanExpr :=
  CleanExpr.castReal (.rep (.caseFirst (.trim (.colRef col)) " - ") ",")

def rangeMaxFor (col : String) : CleanExpr :=
  CleanExpr.castReal (.rep (.caseSecond (.trim (.colRef col)) " - ") ",")

/-- Specification-side formulation of rounding to the nearest integer
with the round-half-to-even tie rule, stated directly on ℚ (used to check
that the integer arithmetic of `halfEvenDiv` implements it, and to state
the EXACT-rational reading of "rounded to one decimal place" that the
program's float pipeline diverges from). -/
def specHalfEven (y : ℚ) : ℤ :=
  if Int.fract y < 1 / 2 then ⌊y⌋
  else if 1 / 2 < Int.fract y then ⌊y⌋ + 1
  else if ⌊y⌋ % 2 = 0 then ⌊y⌋ else ⌊y⌋ + 1

/-- The exact rational `x` rounded to one decimal place over ℚ (not what
Python computes on floats: see `fillPctTenths`). -/
def specRound1 (x : ℚ) : ℚ := (specHalfEven (10 * x) : ℚ) / 10

/-! ## Helper lemmas -/

theorem halfEvenDiv_spec (p q : ℤ) (hq : 0 < q) :
    halfEvenDiv p q = specHalfEven ((p : ℚ) / (q : ℚ)) := by
  have hqQ : (0 : ℚ) < (q : ℚ) := by exact_mod_cast hq
  have hq0 : (q : ℚ) ≠ 0 := ne_of_gt hqQ
  have hpr : q * p.fdiv q + p.fmod q = p := Int.fdiv_add_fmod p q
  have hr0 : 0 ≤ p.fmod q := Int.fmod_nonneg' p hq
  have hrq : p.fmod q < q := Int.fmod_lt_of_pos p hq
  have hx : (p : ℚ) / q = (p.fdiv q : ℚ) + (p.fmod q : ℚ) / q := by
    field_simp
    exact_mod_cast (by linarith [hpr] : (p : ℤ) = p.fdiv q * q + p.fmod q)
  have hfr0 : (0 : ℚ) ≤ (p.fmod q : ℚ) / q := by positivity
  have hfr1 : (p.fmod q : ℚ) / q < 1 := by
    rw [div_lt_one hqQ]
    exact_mod_cast hrq
  have hfloor : ⌊(p : ℚ) / q⌋ = p.fdiv q := by
    rw [hx, Int.floor_int_add]
    have : ⌊(p.fmod q : ℚ) / q⌋ = 0 := Int.floor_eq_zero_iff.mpr ⟨hfr0, hfr1⟩
    omega
  have hfract : Int.fract ((p : ℚ) / q) = (p.fmod q : ℚ) / q := by
    rw [Int.fract, hfloor, hx]
    ring
  have hc1 : ((p.fmod q : ℚ) / q < 1 / 2) ↔ (2 * p.fmod q < q) := by
    rw [div_lt_div_iff₀ hqQ (by norm_num : (0:ℚ) < 2)]
    constructor
    · intro h
      have : ((2 * p.fmod q : ℤ) : ℚ) < ((q : ℤ) : ℚ) := by push_cast; linarith
      exact_mod_cast this
    · intro h
      have : ((2 * p.fmod q : ℤ) : ℚ) < ((q : ℤ) : ℚ) := by exact_mod_cast h
      push_cast at this
      linarith
  have hc2 : (1 / 2 < (p.fmod q : ℚ) / q) ↔ (q < 2 * p.fmod q) := by
    rw [div_lt_div_iff₀ (by norm_num : (0:ℚ) < 2) hqQ]
    constructor
    · intro h
      have : ((q : ℤ) : ℚ) < ((2 * p.fmod q : ℤ) : ℚ) := by push_cast; linarith
      exact_mod_cast this
    · intro h
      have : ((q : ℤ) : ℚ) < ((2 * p.fmod q : ℤ) : ℚ) := by exact_mod_cast h
      push_cast at this
      linarith
  unfold specHalfEven halfEvenDiv
  rw [hfract, hfloor]
  simp only [hc1, hc2]

theorem foldl_append_data (sep : String) (as : List String) (acc : String) :
    ∃ t, (as.foldl (fun a x => a ++ sep ++ x) acc).data = acc.data ++ t := by
  induction as generalizing acc with
  | nil => exact ⟨[], by simp⟩
  | cons x xs ih =>
    obtain ⟨t, ht⟩ := ih (acc ++ sep ++ x)
    exact ⟨sep.data ++ x.data ++ t, by
      simp only [List.foldl_cons, ht, String.data_append, List.append_assoc]⟩

theorem joinSep_cons_ne (sep a : String) (as : List String) (h : a.data ≠ []) :
    joinSep sep (a :: as) ≠ "" := by
  intro hc
  obtain ⟨t, ht⟩ := foldl_append_data sep as a
  have : (joinSep sep (a :: as)).data = a.data ++ t := ht
  rw [hc] at this
  exact h (List.append_eq_nil.mp this.symm).1

theorem digitChar_facts (c : Char) (h : decimalDigits.contains c = true) :
    c.isDigit = true ∧ c.isAlpha = false ∧ isPyWS c = false ∧ inStripClass c = false ∧
    isWordStart c = false ∧ c ≠ '-' ∧ c ≠ ' ' ∧ c ≠ ',' := by
  have hm : c ∈ decimalDigits := by simpa [decimalDigits] using h
  fin_cases hm <;> decide

theorem isPrefixOf_head_ne (a c : Char) (as l : List Char) (h : a ≠ c) :
    (a :: as).isPrefixOf (c :: l) = false := by
  rw [List.isPrefixOf_cons₂, beq_eq_false_iff_ne.mpr h, Bool.false_and]

theorem stripGo_no_word (fuel : Nat) (l : List Char) (hfuel : l.length ≤ fuel)
    (h : ∀ c ∈ l, isWordStart c = false) :
    stripGo fuel l = l.filter (fun c => !inStripClass c) := by
  induction fuel generalizing l with
  | zero =>
    cases l with
    | nil => rfl
    | cons c rest => simp at hfuel
  | succ fuel ih =>
    cases l with
    | nil => rfl
    | cons c rest =>
      have hc := h c (List.mem_cons_self c rest)
      have g1 : "Desde".data.isPrefixOf (c :: rest) = false :=
        isPrefixOf_head_ne 'D' c _ rest
          (fun e => by rw [← e] at hc; exact absurd hc (by decide))
      have g2 : "desde".data.isPrefixOf (c :: rest) = false :=
        isPrefixOf_head_ne 'd' c _ rest
          (fun e => by rw [← e] at hc; exact absurd hc (by decide))
      have g3 : "From".data.isPrefixOf (c :: rest) = false :=
        isPrefixOf_head_ne 'F' c _ rest
          (fun e => by rw [← e] at hc; exact absurd hc (by decide))
      have g4 : "from".data.isPrefixOf (c :: rest) = false :=
        isPrefixOf_head_ne 'f' c _ rest
          (fun e => by rw [← e] at hc; exact absurd hc (by decide))
      have hrest : ∀ x ∈ rest, isWordStart x = false :=
        fun x hx => h x (List.mem_cons_of_mem _ hx)
      have hlen : rest.length ≤ fuel := by
        simp only [List.length_cons] at hfuel
        omega
      by_cases hcl : inStripClass c
      · simp [stripGo, g1, g2, g3, g4, hcl, ih rest hlen hrest, List.filter_cons]
      · simp [stripGo, g1, g2, g3, g4, hcl, ih rest hlen hrest, List.filter_cons]

theorem stripMarkers_no_word (l : List Char) (h : ∀ c ∈ l, isWordStart c = false) :
    stripMarkers l = l.filter (fun c => !inStripClass c) :=
  stripGo_no_word l.length l le_rfl h

theorem sepHere_false (c : Char) (rest : List Char) (hws : isPyWS c = false)
    (hd : c ≠ '-') : sepHere (c :: rest) = false := by
  simp only [sepHere, List.dropWhile_cons, hws, Bool.false_eq_true, if_false]
  split
  · rename_i heq
    rw [List.cons.injEq] at heq
    exact absurd heq.1 hd
  · rfl

theorem beforeSep_no_dash (l : List Char)
    (hws : ∀ c ∈ l, isPyWS c = false) (hd : ∀ c ∈ l, c ≠ '-') :
    beforeSep l = l := by
  induction l with
  | nil => rfl
  | cons c rest ih =>
    have hsep : sepHere (c :: rest) = false :=
      sepHere_false c rest (hws c (List.mem_cons_self c rest)) (hd c (List.mem_cons_self c rest))
    simp only [beforeSep, hsep, Bool.false_eq_true, if_false, List.cons.injEq, true_and]
    exact ih (fun x hx => hws x (List.mem_cons_of_mem _ hx))
      (fun x hx => hd x (List.mem_cons_of_mem _ hx))

theorem beforeSep_append_dash (xs ys : List Char)
    (hws : ∀ c ∈ xs, isPyWS c = false) (hd : ∀ c ∈ xs, c ≠ '-') :
    beforeSep (xs ++ '-' :: ys) = xs := by
  induction xs with
  | nil =>
    have hsep : sepHere ('-' :: ys) = true := by
      simp [sepHere, List.dropWhile_cons, (by decide : isPyWS '-' = false)]
    simp [beforeSep, hsep]
  | cons x xs ih =>
    have hsep : sepHere (x :: (xs ++ '-' :: ys)) = false :=
      sepHere_false x _ (hws x (List.mem_cons_self x xs)) (hd x (List.mem_cons_self x xs))
    calc beforeSep ((x :: xs) ++ '-' :: ys)
        = if sepHere (x :: (xs ++ '-' :: ys)) = true then []
          else x :: beforeSep (xs ++ '-' :: ys) := by rw [List.cons_append]; rfl
      _ = x :: beforeSep (xs ++ '-' :: ys) := by rw [hsep]; simp
      _ = x :: xs := by
          rw [ih (fun c hc => hws c (List.mem_cons_of_mem _ hc))
            (fun c hc => hd c (List.mem_cons_of_mem _ hc))]

theorem isoDateStart_of_no_dash (l : List Char) (h : ∀ c ∈ l, c ≠ '-') :
    isoDateStart l = false := by
  have hd : dashAt l 4 = false := by
    unfold dashAt
    cases hg : l.get? 4 with
    | none => rfl
    | some c =>
      have hm : c ∈ l := List.get?_mem hg
      simp [beq_eq_false_iff_ne.mpr (h c hm)]
  simp [isoDateStart, hd]

theorem preMatchL_none (c : Char) (rest : List Char) (h : isWordStart c = false) :
    preMatchL (c :: rest) = none := by
  simp only [preMatchL,
    isPrefixOf_head_ne 'D' c _ rest
      (fun e => by rw [← e] at h; exact absurd h (by decide)),
    isPrefixOf_head_ne 'd' c _ rest
      (fun e => by rw [← e] at h; exact absurd h (by decide)),
    isPrefixOf_head_ne 'F' c _ rest
      (fun e => by rw [← e] at h; exact absurd h (by decide)),
    isPrefixOf_head_ne 'f' c _ rest
      (fun e => by rw [← e] at h; exact absurd h (by decide)),
    Bool.false_eq_true, if_false]

theorem prefixAccum_eq_nil (vals : List String)
    (h : ∀ v ∈ vals, preMatchL v.data = none) : prefixAccum vals = [] := by
  unfold prefixAccum
  have hs : ∀ (ws : List String), (∀ v ∈ ws, preMatchL v.data = none) →
      ∀ acc : List String,
      ws.foldl
        (fun (acc : List String) (v : String) =>
          match preMatchL v.data with
          | some p => let s := String.mk p; if acc.contains s then acc else acc ++ [s]
          | none => acc) acc = acc := by
    intro ws
    induction ws with
    | nil => intro _ acc; rfl
    | cons v vs ih =>
      intro hw acc
      simp only [List.foldl_cons, hw v (List.mem_cons_self v vs)]
      exact ih (fun x hx => hw x (List.mem_cons_of_mem _ hx)) acc
  exact hs vals h []

theorem anyContains_false (vals : List String) (sym : Char)
    (h : ∀ v ∈ vals, sym ∉ v.data) :
    (vals.any fun v => v.data.contains sym) = false := by
  rw [List.any_eq_false]
  intro v hv
  simp [h v hv]

theorem numTok_chars {t : List Char} (ht : numTok t = true) :
    ∀ x ∈ t, decimalDigits.contains x = true ∨ x = ',' := by
  intro x hx
  simp only [numTok, Bool.and_eq_true, List.all_eq_true] at ht
  have := ht.1.2 x hx
  simpa using this

theorem numTok_has_digit {t : List Char} (ht : numTok t = true) :
    ∃ x ∈ t, decimalDigits.contains x = true := by
  simp only [numTok, Bool.and_eq_true, List.any_eq_true] at ht
  exact ht.2

theorem looksNumeric_digitsOnly (v : String) (hne : v.data ≠ [])
    (h : ∀ c ∈ v.data, decimalDigits.contains c = true) : looksNumeric v = true := by
  have hword : ∀ c ∈ v.data, isWordStart c = false :=
    fun c hc => (digitChar_facts c (h c hc)).2.2.2.2.1
  have hstrip : stripMarkers v.data = v.data.filter (fun c => !inStripClass c) :=
    stripMarkers_no_word _ hword
  have hfilter : v.data.filter (fun c => !inStripClass c) = v.data :=
    List.filter_eq_self.mpr (fun c hc => by simp [(digitChar_facts c (h c hc)).2.2.2.1])
  have hbs : beforeSep v.data = v.data :=
    beforeSep_no_dash _ (fun c hc => (digitChar_facts c (h c hc)).2.2.1)
      (fun c hc => (digitChar_facts c (h c hc)).2.2.2.2.2.1)
  have hiso : isoDateStart v.data = false :=
    isoDateStart_of_no_dash _ (fun c hc => (digitChar_facts c (h c hc)).2.2.2.2.2.1)
  have hdc : digitCountL v.data = v.data.length := by
    unfold digitCountL
    rw [List.countP_eq_length]
    exact fun c hc => (digitChar_facts c (h c hc)).1
  have hac : alphaCountL v.data = 0 := by
    unfold alphaCountL
    rw [List.countP_eq_zero]
    intro c hc
    simp [(digitChar_facts c (h c hc)).2.1]
  have hne' : v.data.isEmpty = false := by simpa [List.isEmpty_iff] using hne
  have hlen : 0 < v.data.length := List.length_pos.mpr hne
  have hlen2 : 0 < v.length := hlen
  simp only [looksNumeric, hiso, Bool.false_eq_true, if_false, hstrip, hfilter, hbs, hne',
    hdc, hac]
  simp [hlen, hlen2]

theorem isPrefixOf_append_self (p s : List Char) : p.isPrefixOf (p ++ s) = true := by
  simp

theorem listContains_nil_pat (l : List Char) : listContains [] l = true := by
  cases l <;> simp [listContains]

theorem listContains_append (pre pat suf : List Char) :
    listContains pat (pre ++ (pat ++ suf)) = true := by
  induction pre with
  | nil =>
    rw [List.nil_append]
    cases pat with
    | nil => exact listContains_nil_pat _
    | cons p0 ps =>
      rw [List.cons_append, listContains, ← List.cons_append, isPrefixOf_append_self,
        Bool.true_or]
  | cons x pre ih =>
    rw [List.cons_append, listContains, ih, Bool.or_true]

theorem listContains_head_notmem (c0 : Char) (p l : List Char) (h : c0 ∉ l) :
    listContains (c0 :: p) l = false := by
  induction l with
  | nil => rfl
  | cons x rest ih =>
    rw [listContains,
      isPrefixOf_head_ne c0 x p rest (fun e => h (e ▸ List.mem_cons_self x rest)),
      Bool.false_or]
    exact ih (fun hm => h (List.mem_cons_of_mem _ hm))

theorem nospaceSearch_false (l : List Char) (h : ∀ c ∈ l, c ≠ '-' ∧ isPyWS c = false) :
    nospaceSearch l = false := by
  induction l with
  | nil => rfl
  | cons c rest ih =>
    rw [nospaceSearch, Bool.or_eq_false_iff]
    refine ⟨?_, ih (fun x hx => h x (List.mem_cons_of_mem _ hx))⟩
    rw [nospaceAt]
    cases hrest : rest with
    | nil => simp
    | cons d t =>
      have hd := h d (by rw [hrest]; exact List.mem_cons_of_mem _ (List.mem_cons_self d t))
      rw [List.dropWhile_cons, hd.2]
      simp only [Bool.false_eq_true, if_false]
      have : (match d :: t with
          | '-' :: r2 =>
            (match r2.dropWhile isPyWS with
             | x :: y :: _ => if isMoneySym x then y.isDigit else x.isDigit
             | [x] => !isMoneySym x && x.isDigit
             | [] => false)
          | _ => false) = false := by
        split
        · rename_i heq
          rw [List.cons.injEq] at heq
          exact absurd heq.1 hd.1
        · rfl
      rw [this, Bool.and_false]

theorem filter_truthy_of_ne (vals : List String) (h : ∀ v ∈ vals, v.data ≠ []) :
    vals.filter (fun v => !(v == "")) = vals :=
  List.filter_eq_self.mpr (fun v hv => by
    have : v ≠ "" := fun e => h v hv (by rw [e])
    simp [this])

theorem mkVal_chars (k : Nat) : ∀ c ∈ (mkVal k).data, decimalDigits.contains c = true := by
  intro c hc
  rw [show (mkVal k).data = '1' :: List.replicate k '0' from rfl] at hc
  rcases List.mem_cons.mp hc with rfl | hm
  · decide
  · rw [List.eq_of_mem_replicate hm]
    decide

theorem mkVal_ne_nil (k : Nat) : (mkVal k).data ≠ [] := by
  rw [show (mkVal k).data = '1' :: List.replicate k '0' from rfl]
  simp

/-- Assembled classification of an all-digit-string column: the plain
comma-stripping expression is synthesized, identically for min and max. -/
theorem classifyColumn_digitsOnly (tbl col : String) (vals : List String) (hne : vals ≠ [])
    (h : ∀ v ∈ vals, v.data ≠ [] ∧ ∀ c ∈ v.data, decimalDigits.contains c = true) :
    classifyColumn tbl col vals =
      some ⟨tbl, col, ["plain formatted numbers with commas"],
        plainExprFor col, plainExprFor col⟩ := by
  have hfil : vals.filter (fun v => !(v == "")) = vals :=
    filter_truthy_of_ne vals (fun v hv => (h v hv).1)
  have hcount : vals.countP (fun v => looksNumeric v) = vals.length :=
    List.countP_eq_length.mpr
      (fun v hv => looksNumeric_digitsOnly v (h v hv).1 (h v hv).2)
  have hpre : prefixAccum vals = [] := by
    apply prefixAccum_eq_nil
    intro v hv
    cases hd : v.data with
    | nil => exact absurd hd (h v hv).1
    | cons c rest =>
      apply preMatchL_none
      have hcda : decimalDigits.contains c = true :=
        (h v hv).2 c (by rw [hd]; exact List.mem_cons_self c rest)
      exact (digitChar_facts c hcda).2.2.2.2.1
  have hsym : symbolsIn vals = [] := by
    unfold symbolsIn
    rw [List.filter_eq_nil_iff]
    intro sym hsym
    rw [anyContains_false vals sym
      (fun v hv hmem => by
        have hc := (h v hv).2 sym hmem
        fin_cases hsym <;> exact absurd hc (by decide))]
    simp
  have hsp : hasRangeSpaced vals = false := by
    unfold hasRangeSpaced
    rw [List.any_eq_false]
    intro v hv
    have hnm : (' ' : Char) ∉ v.data :=
      fun hm => absurd ((h v hv).2 ' ' hm) (by decide)
    rw [show (" - ".data) = ' ' :: "- ".data from rfl,
      listContains_head_notmem ' ' _ _ hnm]
    simp
  have hns : hasRangeNospace vals = false := by
    unfold hasRangeNospace
    rw [List.any_eq_false]
    intro v hv
    have hns' : nospaceSearch v.data = false :=
      nospaceSearch_false _ (fun c hc =>
        ⟨(digitChar_facts c ((h v hv).2 c hc)).2.2.2.2.2.1,
         (digitChar_facts c ((h v hv).2 c hc)).2.2.1⟩)
    simp [hns']
  have hene : vals.isEmpty = false := by simpa [List.isEmpty_iff] using hne
  have hlen : 0 < vals.length := List.length_pos.mpr hne
  simp only [classifyColumn, hfil, hene, Bool.false_eq_true, if_false, hcount, hpre, hsym,
    hsp, hns]
  rw [if_neg (by omega)]
  rfl

/-- Assembled classification of an all-digit-string column extended with
the range value "1 - 2": the spaced-range expressions are synthesized. -/
theorem classifyColumn_digitsRange (tbl col : String) (vals : List String)
    (h : ∀ v ∈ vals, v.data ≠ [] ∧ ∀ c ∈ v.data, decimalDigits.contains c = true) :
    classifyColumn tbl col (vals ++ ["1 - 2"]) =
      some ⟨tbl, col, ["range with \" - \" separator"],
        rangeMinFor col, rangeMaxFor col⟩ := by
  have hall : ∀ v ∈ vals ++ ["1 - 2"],
      (v.data ≠ [] ∧ ∀ c ∈ v.data, decimalDigits.contains c = true) ∨ v = "1 - 2" := by
    intro v hv
    rcases List.mem_append.mp hv with hL | hR
    · exact Or.inl (h v hL)
    · exact Or.inr (List.mem_singleton.mp hR)
  have hfil : (vals ++ ["1 - 2"]).filter (fun v => !(v == "")) = vals ++ ["1 - 2"] := by
    apply filter_truthy_of_ne
    intro v hv
    rcases hall v hv with hd | rfl
    · exact hd.1
    · decide
  have hcount : (vals ++ ["1 - 2"]).countP (fun v => looksNumeric v) =
      (vals ++ ["1 - 2"]).length := by
    rw [List.countP_eq_length]
    intro v hv
    rcases hall v hv with hd | rfl
    · exact looksNumeric_digitsOnly v hd.1 hd.2
    · decide
  have hpre : prefixAccum (vals ++ ["1 - 2"]) = [] := by
    apply prefixAccum_eq_nil
    intro v hv
    rcases hall v hv with hd | rfl
    · cases hdd : v.data with
      | nil => exact absurd hdd hd.1
      | cons c rest =>
        apply preMatchL_none
        have hcda : decimalDigits.contains c = true :=
          hd.2 c (by rw [hdd]; exact List.mem_cons_self c rest)
        exact (digitChar_facts c hcda).2.2.2.2.1
    · decide
  have hsym : symbolsIn (vals ++ ["1 - 2"]) = [] := by
    unfold symbolsIn
    rw [List.filter_eq_nil_iff]
    intro sym hsym
    rw [anyContains_false _ sym
      (fun v hv hmem => by
        rcases hall v hv with hd | heq
        · have hc := hd.2 sym hmem
          fin_cases hsym <;> exact absurd hc (by decide)
        · rw [heq] at hmem
          fin_cases hsym <;> exact absurd hmem (by decide))]
    simp
  have hsp : hasRangeSpaced (vals ++ ["1 - 2"]) = true := by
    unfold hasRangeSpaced
    rw [List.any_eq_true]
    refine ⟨"1 - 2", List.mem_append_right _ (List.mem_singleton.mpr rfl), by decide⟩
  have hns : hasRangeNospace (vals ++ ["1 - 2"]) = false := by
    unfold hasRangeNospace
    rw [List.any_eq_false]
    intro v hv
    rcases hall v hv with hd | rfl
    · have hns' : nospaceSearch v.data = false :=
        nospaceSearch_false _ (fun c hc =>
          ⟨(digitChar_facts c (hd.2 c hc)).2.2.2.2.2.1,
           (digitChar_facts c (hd.2 c hc)).2.2.1⟩)
      simp [hns']
    · decide
  have hene : (vals ++ ["1 - 2"]).isEmpty = false := by
    simp [List.isEmpty_iff]
  have hlen : 0 < (vals ++ ["1 - 2"]).length := by
    simp
  simp only [classifyColumn, hfil, hene, Bool.false_eq_true, if_false, hcount, hpre, hsym,
    hsp, hns]
  rw [if_neg (by omega)]
  rfl

theorem styledChars (v : String) (h : DollarRangeStyled v) :
    ∀ c ∈ v.data, c = '$' ∨ decimalDigits.contains c = true ∨ c = ',' ∨ c = ' ' ∨ c = '-' := by
  obtain ⟨a, b, ha, hb, hdata⟩ := h
  have haC := numTok_chars ha
  have hbC := numTok_chars hb
  intro c hc
  rw [hdata] at hc
  rcases List.mem_cons.mp hc with rfl | hc2
  · exact Or.inl rfl
  rcases List.mem_append.mp hc2 with hA | hB
  · rcases haC c hA with hd | rfl
    · exact Or.inr (Or.inl hd)
    · exact Or.inr (Or.inr (Or.inl rfl))
  rcases List.mem_cons.mp hB with rfl | hB2
  · exact Or.inr (Or.inr (Or.inr (Or.inl rfl)))
  rcases List.mem_cons.mp hB2 with rfl | hB3
  · exact Or.inr (Or.inr (Or.inr (Or.inr rfl)))
  rcases List.mem_cons.mp hB3 with rfl | hB4
  · exact Or.inr (Or.inr (Or.inr (Or.inl rfl)))
  rcases List.mem_cons.mp hB4 with rfl | hB5
  · exact Or.inl rfl
  rcases hbC c hB5 with hd | rfl
  · exact Or.inr (Or.inl hd)
  · exact Or.inr (Or.inr (Or.inl rfl))

theorem looksNumeric_styled (v : String) (h : DollarRangeStyled v) :
    looksNumeric v = true := by
  have hcls := styledChars v h
  obtain ⟨a, b, ha, hb, hdata⟩ := h
  have haC := numTok_chars ha
  have hword : ∀ c ∈ v.data, isWordStart c = false := by
    intro c hc
    rcases hcls c hc with rfl | hd | rfl | rfl | rfl
    · decide
    · exact (digitChar_facts c hd).2.2.2.2.1
    · decide
    · decide
    · decide
  have hstrip := stripMarkers_no_word v.data hword
  have hfa : ∀ c ∈ a.filter (fun c => !inStripClass c), decimalDigits.contains c = true := by
    intro c hc
    have hmm := List.mem_of_mem_filter hc
    have hkeep := List.of_mem_filter hc
    rcases haC c hmm with hd | rfl
    · exact hd
    · exact absurd hkeep (by decide)
  have hfilter : v.data.filter (fun c => !inStripClass c) =
      a.filter (fun c => !inStripClass c) ++ '-' :: b.filter (fun c => !inStripClass c) := by
    rw [hdata]
    simp [List.filter_cons, List.filter_append,
      (by decide : inStripClass '$' = true), (by decide : inStripClass ' ' = true),
      (by decide : inStripClass '-' = false)]
  have hfane : a.filter (fun c => !inStripClass c) ≠ [] := by
    obtain ⟨x, hx, hxd⟩ := numTok_has_digit ha
    intro hnil
    have hxin : x ∈ a.filter (fun c => !inStripClass c) :=
      List.mem_filter.mpr ⟨hx, by simp [(digitChar_facts x hxd).2.2.2.1]⟩
    rw [hnil] at hxin
    exact absurd hxin (List.not_mem_nil x)
  have hbs : beforeSep (a.filter (fun c => !inStripClass c) ++ '-' ::
      b.filter (fun c => !inStripClass c)) = a.filter (fun c => !inStripClass c) :=
    beforeSep_append_dash _ _
      (fun c hc => (digitChar_facts c (hfa c hc)).2.2.1)
      (fun c hc => (digitChar_facts c (hfa c hc)).2.2.2.2.2.1)
  have hiso : isoDateStart v.data = false := by
    rw [hdata]
    have h0 : digitAt ('$' :: (a ++ (' ' :: '-' :: ' ' :: '$' :: b))) 0 = false := rfl
    simp [isoDateStart, h0]
  have hdc : digitCountL (a.filter (fun c => !inStripClass c)) =
      (a.filter (fun c => !inStripClass c)).length := by
    unfold digitCountL
    rw [List.countP_eq_length]
    exact fun c hc => (digitChar_facts c (hfa c hc)).1
  have hac : alphaCountL (a.filter (fun c => !inStripClass c)) = 0 := by
    unfold alphaCountL
    rw [List.countP_eq_zero]
    intro c hc
    simp [(digitChar_facts c (hfa c hc)).2.1]
  have hfane' : (a.filter (fun c => !inStripClass c)).isEmpty = false := by
    simpa [List.isEmpty_iff] using hfane
  have hlen : 0 < (a.filter (fun c => !inStripClass c)).length := List.length_pos.mpr hfane
  simp only [looksNumeric, hiso, Bool.false_eq_true, if_false, hstrip, hfilter, hbs, hfane',
    hdc, hac]
  simp [hlen]

/-- Assembled classification of a column of spaced dollar ranges: one
currency symbol, the spaced separator, and the synthesized split/cast
expressions. -/
theorem classifyColumn_styled (tbl col : String) (vals : List String) (hne : vals ≠ [])
    (hall : ∀ v ∈ vals, DollarRangeStyled v) :
    classifyColumn tbl col vals =
      some ⟨tbl, col, ["range with \" - \" separator", "currency symbols: $"],
        CleanExpr.castReal
          (.rep (.rep (.caseFirst (.trim (.rep (.colRef col) "$")) " - ") "$") ","),
        CleanExpr.castReal
          (.rep (.rep (.caseSecond (.trim (.rep (.colRef col) "$")) " - ") "$") ",")⟩ := by
  have hfil : vals.filter (fun v => !(v == "")) = vals := by
    apply filter_truthy_of_ne
    intro v hv
    obtain ⟨a, b, _, _, hdata⟩ := hall v hv
    rw [hdata]
    simp
  have hcount : vals.countP (fun v => looksNumeric v) = vals.length :=
    List.countP_eq_length.mpr (fun v hv => looksNumeric_styled v (hall v hv))
  have hpre : prefixAccum vals = [] := by
    apply prefixAccum_eq_nil
    intro v hv
    obtain ⟨a, b, _, _, hdata⟩ := hall v hv
    rw [hdata]
    exact preMatchL_none '$' _ (by decide)
  have hsym : symbolsIn vals = ['$'] := by
    have hdollar : (vals.any fun v => v.data.contains '$') = true := by
      obtain ⟨v0, hv0⟩ := List.exists_mem_of_ne_nil vals hne
      rw [List.any_eq_true]
      refine ⟨v0, hv0, ?_⟩
      obtain ⟨a, b, _, _, hdata⟩ := hall v0 hv0
      rw [hdata]
      simp
    have hothers : ∀ sym, sym ∈ ['£', '¥', '€', '＄'] →
        (vals.any fun v => v.data.contains sym) = false := by
      intro sym hsym
      apply anyContains_false
      intro v hv hmem
      have hcl := styledChars v (hall v hv) sym hmem
      fin_cases hsym <;> rcases hcl with h | h | h | h | h <;> exact absurd h (by decide)
    unfold symbolsIn moneySyms
    simp only [List.filter_cons, hdollar,
      hothers '£' (by simp), hothers '¥' (by simp),
      hothers '€' (by simp), hothers '＄' (by simp)]
    rfl
  have hsp : hasRangeSpaced vals = true := by
    obtain ⟨v0, hv0⟩ := List.exists_mem_of_ne_nil vals hne
    unfold hasRangeSpaced
    rw [List.any_eq_true]
    refine ⟨v0, hv0, ?_⟩
    obtain ⟨a, b, _, _, hdata⟩ := hall v0 hv0
    rw [hdata]
    exact listContains_append ('$' :: a) (" - ".data) ('$' :: b)
  have hns : hasRangeNospace vals = false := by
    unfold hasRangeNospace
    rw [List.any_eq_false]
    intro v hv
    obtain ⟨a, b, _, _, hdata⟩ := hall v hv
    have hcon : listContains " - ".data v.data = true := by
      rw [hdata]
      exact listContains_append ('$' :: a) (" - ".data) ('$' :: b)
    simp [hcon]
  have hene : vals.isEmpty = false := by simpa [List.isEmpty_iff] using hne
  have hlen : 0 < vals.length := List.length_pos.mpr hne
  simp only [classifyColumn, hfil, hene, Bool.false_eq_true, if_false, hcount, hpre, hsym,
    hsp, hns]
  rw [if_neg (by omega)]
  rfl

/-! ## Claims -/

/-- Claim C1: for a text column whose distinct values are all spaced dollar
ranges with thousands commas in the style of "$1,200 - $3,400", the
classifier emits a Finding, and evaluating that Finding's expr_min on the
value "$1,200 - $3,400" yields 1200.0, while expr_max yields 3400.0. -/
theorem claim_C1 (tbl col : String) (vals : List String) (hne : vals ≠ [])
    (hall : ∀ v ∈ vals, DollarRangeStyled v) :
    ∃ f : Finding, classifyColumn tbl col vals = some f ∧
      evalReal f.exprMin "$1,200 - $3,400" = 1200 ∧
      evalReal f.exprMax "$1,200 - $3,400" = 3400 :=
  ⟨_, classifyColumn_styled tbl col vals hne hall,
    by simp only [evalReal, evalS]; decide, by simp only [evalReal, evalS]; decide⟩

/-- Witness for C1 at a one-value column holding exactly "$1,200 - $3,400". -/
theorem claim_C1_witness :
    ∃ f : Finding, classifyColumn "t" "price" ["$1,200 - $3,400"] = some f ∧
      evalReal f.exprMin "$1,200 - $3,400" = 1200 ∧
      evalReal f.exprMax "$1,200 - $3,400" = 3400 :=
  claim_C1 "t" "price" ["$1,200 - $3,400"] (by decide) (by
    intro v hv
    rw [List.mem_singleton] at hv
    subst hv
    exact ⟨"1,200".data, "3,400".data, by decide, by decide, by decide⟩)

/-- Claim C6: the Temporal Normalizer's parser maps
"diciembre 22, 2025, 4:13 p. m." to exactly "2025-12-22 16:13:00" and
"diciembre 22, 2025, 12:00 a. m." to exactly "2025-12-22 00:00:00"
(12-hour to 24-hour conversion including the midnight boundary). -/
theorem claim_C6 :
    parseSpanishDate "diciembre 22, 2025, 4:13 p. m." = some "2025-12-22 16:13:00" ∧
    parseSpanishDate "diciembre 22, 2025, 12:00 a. m." = some "2025-12-22 00:00:00" := by
  decide

/-- Claim C10: whenever the cleaned form of a value (after the marker
substitution of the `_looks_numeric` predicate) begins with the range
separator character, the part before the first separator is empty and the
predicate returns false; in particular negative numbers written with a
leading minus sign never count as numeric-looking. -/
theorem claim_C10 (v : String) (h : (stripMarkers v.data).head? = some '-') :
    looksNumeric v = false := by
  unfold looksNumeric
  split
  · rfl
  · obtain ⟨rest, hrest⟩ : ∃ rest, stripMarkers v.data = '-' :: rest := by
      cases hc : stripMarkers v.data with
      | nil => rw [hc] at h; simp at h
      | cons a t =>
        rw [hc] at h
        simp only [List.head?, Option.some.injEq] at h
        exact ⟨t, by rw [h]⟩
    have hws : isPyWS '-' = false := by decide
    have hsep : sepHere ('-' :: rest) = true := by
      simp [sepHere, List.dropWhile_cons, hws]
    simp only [hrest, beforeSep, hsep, if_true, List.isEmpty_nil, if_pos]

/-- Witness for C10 at the negative number "-500". -/
theorem claim_C10_witness :
    (stripMarkers "-500".data).head? = some '-' ∧ looksNumeric "-500" = false :=
  ⟨by decide, claim_C10 "-500" (by decide)⟩

/-- Claim C3: a Numeric-Text Finding whose column showed neither the
spaced nor the tight range separator carries identical `expr_min` and
`expr_max` SQL strings. -/
theorem claim_C3 (tbl col : String) (vals : List String) (f : Finding)
    (hf : classifyColumn tbl col vals = some f)
    (hsp : hasRangeSpaced (vals.filter (fun v => !(v == ""))) = false)
    (hns : hasRangeNospace (vals.filter (fun v => !(v == ""))) = false) :
    render f.exprMin = render f.exprMax := by
  simp only [classifyColumn, hsp, hns, Bool.or_self, Bool.false_eq_true, if_false] at hf
  split at hf
  · exact absurd hf (by simp)
  · split at hf
    · exact absurd hf (by simp)
    · simp only [Option.some.injEq] at hf
      subst hf
      rfl

/-- Witness for C3: a plain comma-formatted column with no range syntax. -/
theorem claim_C3_witness :
    render (CleanExpr.castReal (.rep (.trim (.colRef "c")) ",")) =
      render (CleanExpr.castReal (.rep (.trim (.colRef "c")) ",")) ∧
    classifyColumn "t" "c" ["1,200", "3,400"] =
      some { table := "t", column := "c",
             formatsFound := ["plain formatted numbers with commas"],
             exprMin := CleanExpr.castReal (.rep (.trim (.colRef "c")) ","),
             exprMax := CleanExpr.castReal (.rep (.trim (.colRef "c")) ",") } :=
  ⟨claim_C3 "t" "c" ["1,200", "3,400"]
      { table := "t", column := "c",
        formatsFound := ["plain formatted numbers with commas"],
        exprMin := CleanExpr.castReal (.rep (.trim (.colRef "c")) ","),
        exprMax := CleanExpr.castReal (.rep (.trim (.colRef "c")) ",") }
      (by decide) (by decide) (by decide), by decide⟩

/-- Claim C2 (amended): the distinct values the classifier counts are the
truthy ones — non-null and non-empty.  If fewer than half of the non-null
NON-EMPTY distinct values look numeric, or there are none, no Finding is
emitted.  (The claim as stated, over all non-null distinct values, fails:
see the counterexample.) -/
theorem claim_C2 (tbl col : String) (vals : List String)
    (h : vals.filter (fun v => !(v == "")) = [] ∨
         2 * (vals.filter (fun v => !(v == ""))).countP (fun v => looksNumeric v) <
           (vals.filter (fun v => !(v == ""))).length) :
    classifyColumn tbl col vals = none := by
  unfold classifyColumn
  rcases h with h | h
  · simp [h]
  · by_cases he : (vals.filter (fun v => !(v == ""))).isEmpty
    · simp [he]
    · simp [he, h]

/-- Witness for C2 at a column with one numeric-looking value out of three
truthy distinct values. -/
theorem claim_C2_witness : classifyColumn "t" "c" ["abc", "100", "def"] = none :=
  claim_C2 "t" "c" ["abc", "100", "def"] (Or.inr (by decide))

/-- Counterexample to C2 as stated: the non-null distinct values
["", "100", "abc"] contain fewer than half numeric-looking values
(1 of 3), yet a Finding is emitted, because the comprehension
`[str(r[0]) for r in cursor.fetchall() if r[0]]` drops the empty string
before the 50% test. -/
theorem claim_C2_counterexample :
    2 * (["", "100", "abc"].countP (fun v => looksNumeric v)) < 3 ∧
    (classifyColumn "t" "c" ["", "100", "abc"]).isSome = true := by
  decide

/-- Claim C4 (amended): for every value that does NOT begin with an ISO
date prefix, if the part before the first range separator (after the
marker substitution) contains at least one digit and its
alphabetic-to-digit ratio is at most 0.3, then `_looks_numeric` returns
true.  (The claim as stated admits date-prefixed values with digits after
the prefix; those are rejected outright — see the counterexample.) -/
theorem claim_C4 (v : String)
    (hiso : isoDateStart v.data = false)
    (hd : 0 < digitCountL (beforeSep (stripMarkers v.data)))
    (hr : 10 * alphaCountL (beforeSep (stripMarkers v.data)) ≤
          3 * digitCountL (beforeSep (stripMarkers v.data))) :
    looksNumeric v = true := by
  have hne : (beforeSep (stripMarkers v.data)).isEmpty = false := by
    cases hb : beforeSep (stripMarkers v.data) with
    | nil => rw [hb] at hd; simp [digitCountL] at hd
    | cons a t => simp
  unfold looksNumeric
  simp [hiso, hne, hd, hr]

/-- Witness for C4 at "$2,000". -/
theorem claim_C4_witness : looksNumeric "$2,000" = true :=
  claim_C4 "$2,000" (by decide) (by decide) (by decide)

/-- Counterexample to C4 as stated: "2024-01-05 500" has digits outside
its date prefix and an alphabetic-to-digit ratio of zero on the measured
part, yet `_looks_numeric` returns false because any value matching
`^\d{4}-\d{2}-\d{2}` is rejected before the ratio test. -/
theorem claim_C4_counterexample :
    ("2024-01-05 500".data.drop 10).any Char.isDigit = true ∧
    0 < digitCountL (beforeSep (stripMarkers "2024-01-05 500".data)) ∧
    10 * alphaCountL (beforeSep (stripMarkers "2024-01-05 500".data)) ≤
      3 * digitCountL (beforeSep (stripMarkers "2024-01-05 500".data)) ∧
    looksNumeric "2024-01-05 500" = false := by
  decide

/-- Claim C9 (amended): the classifier's distinct-value scan is NOT
bounded by 30 (or any bound): for every n there are two columns of
pairwise-distinct values agreeing on their first n distinct values whose
classifications differ, so the classifier inspects the values beyond any
fixed prefix.  (The `SELECT DISTINCT` it issues has no LIMIT; the
"LIMIT 30" of the spec belongs to the prompt text handed to the LLM
agent, not to `_detect_numeric_text_columns`.) -/
theorem claim_C9 (n : Nat) :
    (baseVals n ++ ["1 - 2"]).take n = baseVals n ∧
    List.Pairwise (· ≠ ·) (baseVals n ++ ["1 - 2"]) ∧
    classifyColumn "t" "c" (baseVals n) ≠
      classifyColumn "t" "c" (baseVals n ++ ["1 - 2"]) := by
  have hbase : ∀ v ∈ baseVals n,
      v.data ≠ [] ∧ ∀ c ∈ v.data, decimalDigits.contains c = true := by
    intro v hv
    obtain ⟨k, _, rfl⟩ := List.mem_map.mp hv
    exact ⟨mkVal_ne_nil k, mkVal_chars k⟩
  refine ⟨?_, ?_, ?_⟩
  · exact List.take_left' (by simp [baseVals])
  · rw [List.pairwise_append]
    refine ⟨?_, by simp, ?_⟩
    · have h1 : List.Pairwise (· < ·) (List.range n) := List.pairwise_lt_range n
      refine h1.map mkVal (fun a b hab => ?_)
      intro e
      have hlength := congrArg (fun s : String => s.data.length) e
      simp only [show ∀ k, (mkVal k).data = '1' :: List.replicate k '0' from fun k => rfl,
        List.length_cons, List.length_replicate] at hlength
      omega
    · intro a ha b hb
      rw [List.mem_singleton] at hb
      subst hb
      intro e
      have hsp : (' ' : Char) ∈ ("1 - 2" : String).data := by decide
      rw [← e] at hsp
      exact absurd ((hbase a ha).2 ' ' hsp) (by decide)
  · rcases Nat.eq_zero_or_pos n with rfl | hpos
    · have h1 : classifyColumn "t" "c" (baseVals 0) = none := by decide
      have h2 := classifyColumn_digitsRange "t" "c" [] (by simp)
      rw [h1, show baseVals 0 ++ ["1 - 2"] = [] ++ ["1 - 2"] from rfl, h2]
      simp
    · have hnn : baseVals n ≠ [] := by
        intro e
        have := congrArg List.length e
        simp [baseVals] at this
        omega
      have h1 := classifyColumn_digitsOnly "t" "c" (baseVals n) hnn hbase
      have h2 := classifyColumn_digitsRange "t" "c" (baseVals n) hbase
      rw [h1, h2]
      intro e
      rw [Option.some.injEq] at e
      have hm := congrArg Finding.exprMin e
      simp [plainExprFor, rangeMinFor] at hm

/-- Counterexample to C9 as stated: two columns agreeing on their first 30
distinct values but differing at the 31st receive different Findings, so
the classifier inspected more than 30 distinct values. -/
theorem claim_C9_counterexample :
    (baseVals 30 ++ ["1 - 2"]).take 30 = baseVals 30 ∧
    List.Pairwise (· ≠ ·) (baseVals 30 ++ ["1 - 2"]) ∧
    classifyColumn "t" "c" (baseVals 30) ≠
      classifyColumn "t" "c" (baseVals 30 ++ ["1 - 2"]) := by
  refine ⟨by decide, by decide, ?_⟩
  rw [classifyColumn_digitsOnly "t" "c" (baseVals 30) (by decide)
      (fun v hv => by
        obtain ⟨k, _, rfl⟩ := List.mem_map.mp hv
        exact ⟨mkVal_ne_nil k, mkVal_chars k⟩),
    classifyColumn_digitsRange "t" "c" (baseVals 30)
      (fun v hv => by
        obtain ⟨k, _, rfl⟩ := List.mem_map.mp hv
        exact ⟨mkVal_ne_nil k, mkVal_chars k⟩)]
  simp [plainExprFor, rangeMinFor, rangeMaxFor]

/-- Claim C8 (amended): every reported Column Summary entry has a
positive fill count and reports `fill_pct` as `round(filled/total*100,1)`
evaluated the way the program evaluates it — in binary64 float
arithmetic, whose result can differ from rounding the exact ratio (23 of
80 reports 28.7 where exact-rational half-even rounding gives 28.8; 7 of
10 reports 70.0); every entry traces back to a column that, for the LOCAL
adapter, has at least one non-null non-blank value (so an
all-null-or-empty column is never reported), but for the CLOUD adapter
only at least one NON-NULL value — a cloud column consisting entirely of
empty strings IS reported, contrary to the claim as stated (see the
counterexample). -/
theorem claim_C8 :
    (∀ db tn e, e ∈ columnSummary db tn →
       0 < e.filled ∧ e.fillPct = fillPctQ e.filled e.total ∧
       ∃ t, t ∈ db ∧ t.name = e.table ∧
         ∃ ic, ic ∈ t.colsMeta.enum ∧ ic.2.name = e.column ∧
           0 < (columnValues t ic.1).countP truthyCell) ∧
    (∀ ts tn e, e ∈ bqColumnSummary ts tn →
       0 < e.filled ∧ e.fillPct = fillPctQ e.filled e.total ∧
       ∃ t, t ∈ ts ∧ t.name = e.table ∧
         ∃ ic, ic ∈ t.cols.enum ∧ ic.2.name = e.column ∧
           0 < (bqColumnValues t ic.1).countP (fun v => v.isSome)) ∧
    (fillPctQ 7 10 = 70 ∧ fillPctQ 23 80 = mkRat 287 10 ∧
       specRound1 ((23 : ℚ) * 100 / (80 : ℚ)) = mkRat 288 10) := by
  refine ⟨?_, ?_, by decide, by decide, ?_⟩
  · intro db tn e he
    simp only [columnSummary, List.mem_flatten, List.mem_map] at he
    obtain ⟨l, ⟨t, ht, rfl⟩, hel⟩ := he
    rw [List.mem_filterMap] at hel
    obtain ⟨ic, hic, hg⟩ := hel
    have htdb : t ∈ db := by
      by_cases htn : (tn == "") = true
      · simpa [htn] using ht
      · simp only [htn, Bool.false_eq_true, if_false] at ht
        exact (List.mem_filter.mp ht).1
    split at hg
    · exact absurd hg (by simp)
    · rename_i hfz
      have hfpos : 0 < (columnValues t ic.1).countP truthyCell := by
        rcases Nat.eq_zero_or_pos ((columnValues t ic.1).countP truthyCell) with h0 | h
        · rw [h0] at hfz; simp at hfz
        · exact h
      have hrows : (t.rows.length == 0) = false := by
        have hlen : (columnValues t ic.1).countP truthyCell ≤ t.rows.length := by
          have := List.countP_le_length (p := truthyCell) (l := columnValues t ic.1)
          simpa [columnValues] using this
        simp only [beq_eq_false_iff_ne, ne_eq]
        omega
      rw [Option.some.injEq] at hg
      subst hg
      refine ⟨hfpos, ?_, t, htdb, rfl, ic, hic, rfl, hfpos⟩
      simp only [hrows, Bool.false_eq_true, if_false]
  · intro ts tn e he
    simp only [bqColumnSummary, List.mem_flatten, List.mem_map] at he
    obtain ⟨l, ⟨t, ht, rfl⟩, hel⟩ := he
    split at hel
    · exact absurd hel (by simp)
    · rw [List.mem_filterMap] at hel
      obtain ⟨ic, hic, hg⟩ := hel
      split at hg
      · exact absurd hg (by simp)
      · rename_i hfz
        have hfpos : 0 < (bqColumnValues t ic.1).countP (fun v => v.isSome) := by
          rcases Nat.eq_zero_or_pos ((bqColumnValues t ic.1).countP (fun v => v.isSome))
            with h0 | h
          · rw [h0] at hfz; simp at hfz
          · exact h
        have hrows : (t.rows.length == 0) = false := by
          have hlen : (bqColumnValues t ic.1).countP (fun v => v.isSome) ≤ t.rows.length := by
            have := List.countP_le_length (p := fun v => v.isSome) (l := bqColumnValues t ic.1)
            simpa [bqColumnValues] using this
          simp only [beq_eq_false_iff_ne, ne_eq]
          omega
        rw [Option.some.injEq] at hg
        subst hg
        refine ⟨hfpos, ?_, t, ht, rfl, ic, hic, rfl, hfpos⟩
        simp only [hrows, Bool.false_eq_true, if_false]
  · have h10 : (10 : ℚ) * ((23 : ℚ) * 100 / (80 : ℚ)) = 575 / 2 := by norm_num
    have hfl : ⌊(575 / 2 : ℚ)⌋ = 287 := by
      rw [Int.floor_eq_iff]
      norm_num
    have hfr : Int.fract (575 / 2 : ℚ) = 1 / 2 := by
      rw [Int.fract, hfl]
      norm_num
    rw [specRound1, h10, specHalfEven, hfr, hfl]
    rw [if_neg (by norm_num), if_neg (by norm_num), if_neg (by decide)]
    rw [Rat.mkRat_eq_div]
    norm_num

/-- Witness for C8: a local column with 7 of 10 rows filled reports
fill_pct 70.0, likewise for the cloud adapter, and the 23-of-80 column
reports 28.7 (the exact-rational rounding would give 28.8). -/
theorem claim_C8_witness :
    (0 < (7 : Nat) ∧
      (70 : ℚ) = fillPctQ 7 10 ∧
      ∃ t, t ∈ [(⟨"t", [⟨"c", "TEXT", false, false⟩],
             List.replicate 7 [some "x"] ++ List.replicate 3 [none]⟩ : Table)] ∧
        t.name = "t" ∧
        ∃ ic, ic ∈ t.colsMeta.enum ∧ ic.2.name = "c" ∧
          0 < (columnValues t ic.1).countP truthyCell) ∧
    (0 < (7 : Nat) ∧
      (70 : ℚ) = fillPctQ 7 10 ∧
      ∃ t, t ∈ [(⟨"b", [⟨"d", "STRING", true⟩],
             List.replicate 7 [some "y"] ++ List.replicate 3 [none]⟩ : BqTable)] ∧
        t.name = "b" ∧
        ∃ ic, ic ∈ t.cols.enum ∧ ic.2.name = "d" ∧
          0 < (bqColumnValues t ic.1).countP (fun v => v.isSome)) ∧
    fillPctQ 7 10 = 70 ∧ fillPctQ 23 80 = mkRat 287 10 :=
  ⟨claim_C8.1 [⟨"t", [⟨"c", "TEXT", false, false⟩],
      List.replicate 7 [some "x"] ++ List.replicate 3 [none]⟩] ""
      ⟨"t", "c", "TEXT", 7, 10, 70, ["x"]⟩ (by decide),
   claim_C8.2.1 [⟨"b", [⟨"d", "STRING", true⟩],
      List.replicate 7 [some "y"] ++ List.replicate 3 [none]⟩] none
      ⟨"b", "d", "STRING", 7, 10, 70, ["y"]⟩ (by decide),
   claim_C8.2.2.1, claim_C8.2.2.2.1⟩

/-- Counterexample to C8 as stated: a cloud column whose only value is the
empty string has zero truly-filled cells, yet the BigQuery adapter
reports it (`COUNTIF(col IS NOT NULL)` counts empty strings). -/
theorem claim_C8_counterexample :
    (∀ v ∈ bqColumnValues ⟨"t", [⟨"c", "STRING", true⟩], [[some ""]]⟩ 0,
        v = some "") ∧
    (bqColumnSummary [⟨"t", [⟨"c", "STRING", true⟩], [[some ""]]⟩] none).length = 1 := by
  decide

/-- Claim C5 (amended): the local backend's Schema Document never carries
a cleaning section when no Finding exists; when at least one Finding
exists AND the sentinel phrase "No numeric-as-text" does not occur in the
generated cleaning text, the cleaning section is appended exactly once,
after all per-table blocks.  (As stated — over every database state — the
claim fails: a column name containing the sentinel suppresses the section
even though Findings exist; see the counterexample.  The cloud adapter's
`format_schema_for_llm` builds no cleaning section at all and no Finding
is ever computed for it, so only the local document is at issue.) -/
theorem claim_C5 (db : List Table) :
    (detectNumericTextColumns db = [] → formatSchemaForLLM db = schemaBaseText db) ∧
    (detectNumericTextColumns db ≠ [] →
      listContains "No numeric-as-text".data (getCleaningExpressions db).data = false →
      formatSchemaForLLM db = schemaBaseText db ++ "\n\n" ++ getCleaningExpressions db) := by
  constructor
  · intro h
    unfold formatSchemaForLLM schemaBaseText
    by_cases he : (schemaInfo db).isEmpty
    · simp [he]
    · have hclean : getCleaningExpressions db = "No numeric-as-text columns detected." := by
        unfold getCleaningExpressions
        simp [h]
      have hsent : listContains "No numeric-as-text".data
          "No numeric-as-text columns detected.".data = true := by decide
      simp [he, hclean, hsent]
  · intro h hsent
    have hdbne : db ≠ [] := by
      intro hd
      subst hd
      exact h rfl
    have he : (schemaInfo db).isEmpty = false := by
      cases db with
      | nil => exact absurd rfl hdbne
      | cons t ts => simp [schemaInfo]
    have hent : (detectNumericTextColumns db).isEmpty = false := by
      simpa [List.isEmpty_iff] using h
    have hcne : getCleaningExpressions db ≠ "" := by
      unfold getCleaningExpressions
      simp only [hent, Bool.false_eq_true, if_false]
      exact joinSep_cons_ne _ _ _ (by decide)
    have hbeq : (getCleaningExpressions db == "") = false := by
      simpa using hcne
    unfold formatSchemaForLLM schemaBaseText
    simp [he, hbeq, hsent]

set_option maxRecDepth 4096 in
/-- Witness for C5 on a one-table database with one numeric-as-text
column: the cleaning section is appended after the table block. -/
theorem claim_C5_witness :
    formatSchemaForLLM [⟨"t", [⟨"price", "TEXT", false, false⟩], [[some "1,200"]]⟩] =
      schemaBaseText [⟨"t", [⟨"price", "TEXT", false, false⟩], [[some "1,200"]]⟩] ++ "\n\n" ++
        getCleaningExpressions [⟨"t", [⟨"price", "TEXT", false, false⟩], [[some "1,200"]]⟩] :=
  (claim_C5 [⟨"t", [⟨"price", "TEXT", false, false⟩], [[some "1,200"]]⟩]).2
    (by decide) (by decide)

set_option maxRecDepth 4096 in
/-- Counterexample to C5 as stated: a TEXT column named
"No numeric-as-text c" with numeric values produces a Finding, yet the
document contains no cleaning section, because
`format_schema_for_llm` suppresses the section whenever the sentinel
substring "No numeric-as-text" occurs anywhere in the cleaning text —
including inside a column name. -/
theorem claim_C5_counterexample :
    detectNumericTextColumns
        [⟨"t", [⟨"No numeric-as-text c", "TEXT", false, false⟩],
          [[some "100"], [some "200"]]⟩] ≠ [] ∧
    listContains "## SQL Cleaning Expressions".data
      (formatSchemaForLLM
        [⟨"t", [⟨"No numeric-as-text c", "TEXT", false, false⟩],
          [[some "100"], [some "200"]]⟩]).data = false := by
  decide

/-- Claim C7 (amended): a column whose sample is empty or below the 70%
threshold is left completely unchanged; at or above the threshold every
cell is rewritten by the per-cell rule — which sends matching strings to
the ISO form, sends NON-matching strings to null (not unchanged, contrary
to the claim as stated: see the counterexample), and passes non-string
cells through; the column's length is always preserved (no row dropped). -/
theorem claim_C7 (col : List PyVal) :
    (sampleOf col = [] → convertColumn col = col) ∧
    (10 * hitsOf col < 7 * (sampleOf col).length → convertColumn col = col) ∧
    (sampleOf col ≠ [] → 7 * (sampleOf col).length ≤ 10 * hitsOf col →
      convertColumn col = col.map rewriteVal) ∧
    (convertColumn col).length = col.length := by
  refine ⟨?_, ?_, ?_, ?_⟩
  · intro h
    simp [convertColumn, h]
  · intro h
    unfold convertColumn
    by_cases he : (sampleOf col).isEmpty
    · simp [he]
    · have hn : ¬ 7 * (sampleOf col).length ≤ 10 * hitsOf col := by omega
      simp [he, hn]
  · intro h1 h2
    have he : ¬ (sampleOf col).isEmpty = true := by
      simpa [List.isEmpty_iff] using h1
    simp [convertColumn, he, h2]
  · unfold convertColumn
    split
    · rfl
    · split
      · simp
      · rfl

/-- Witness for C7: the spec's own example column where only 3 of 10
sampled values match the pattern is left unmodified. -/
theorem claim_C7_witness :
    convertColumn (List.replicate 3 (PyVal.pstr "diciembre 22, 2025, 4:13 p. m.") ++
        List.replicate 7 (PyVal.pstr "x")) =
      List.replicate 3 (PyVal.pstr "diciembre 22, 2025, 4:13 p. m.") ++
        List.replicate 7 (PyVal.pstr "x") :=
  (claim_C7 (List.replicate 3 (PyVal.pstr "diciembre 22, 2025, 4:13 p. m.") ++
      List.replicate 7 (PyVal.pstr "x"))).2.1 (by decide)

/-- Counterexample to C7 as stated: in a column meeting the 70% threshold
(7 of 10 cells parse), the non-matching cell "hello" is NOT passed
through unchanged — it becomes null. -/
theorem claim_C7_counterexample :
    7 * (sampleOf (List.replicate 7 (PyVal.pstr "diciembre 22, 2025, 4:13 p. m.") ++
          List.replicate 3 (PyVal.pstr "hello"))).length ≤
      10 * hitsOf (List.replicate 7 (PyVal.pstr "diciembre 22, 2025, 4:13 p. m.") ++
          List.replicate 3 (PyVal.pstr "hello")) ∧
    (List.replicate 7 (PyVal.pstr "diciembre 22, 2025, 4:13 p. m.") ++
        List.replicate 3 (PyVal.pstr "hello")).get? 7 = some (PyVal.pstr "hello") ∧
    (convertColumn (List.replicate 7 (PyVal.pstr "diciembre 22, 2025, 4:13 p. m.") ++
        List.replicate 3 (PyVal.pstr "hello"))).get? 7 = some PyVal.pnull := by
  decide

end DataQueryAgent
